import Mathlib

/-!
# Verification of `mongo-data-access`

Shallow embedding of `src/mongo-data-access.class.ts` (class `MongoDataAccess`).
Documents are modelled as association lists from field names to JS-like values;
JS object semantics (insertion-ordered keys, in-place update, `delete`) are
captured by `setKey` / `delKey` below.  The MongoDB driver is an external
collaborator: each facade operation is embedded as the request it sends to the
driver plus the transformation it applies to the driver's response.
-/

set_option autoImplicit false

namespace MongoDA

/-- A JS/BSON value as it occurs in documents handled by `MongoDataAccess`:
`null`, strings, numbers (integers suffice for the properties at issue),
booleans, native identifiers (`ObjectId`, carried as its 24-hex-char canonical
string), arrays and nested documents. -/
inductive Value where
  | vNull : Value
  | vStr (s : String) : Value
  | vInt (n : Int) : Value
  | vBool (b : Bool) : Value
  | vOid (hex : String) : Value
  | vArr (elems : List Value) : Value
  | vDoc (fields : List (String × Value)) : Value

mutual

/-- Structural equality test on values (JS strict/deep equality as relevant to
BSON values). -/
def Value.beq : Value → Value → Bool
  | .vNull, .vNull => true
  | .vStr a, .vStr b => a == b
  | .vInt a, .vInt b => a == b
  | .vBool a, .vBool b => a == b
  | .vOid a, .vOid b => a == b
  | .vArr a, .vArr b => Value.beqList a b
  | .vDoc a, .vDoc b => Value.beqFields a b
  | _, _ => false

/-- Elementwise equality of value lists. -/
def Value.beqList : List Value → List Value → Bool
  | [], [] => true
  | x :: xs, y :: ys => Value.beq x y && Value.beqList xs ys
  | _, _ => false

/-- Entrywise equality of field lists. -/
def Value.beqFields : List (String × Value) → List (String × Value) → Bool
  | [], [] => true
  | x :: xs, y :: ys => x.1 == y.1 && Value.beq x.2 y.2 && Value.beqFields xs ys
  | _, _ => false

end

instance : BEq Value := ⟨Value.beq⟩

/-- A JS object / BSON document: insertion-ordered association list from field
names to values.  All operations below preserve the JS invariant that keys are
unique. -/
abbrev Document := List (String × Value)

/-- Key lookup (`obj[k]`): value at the first entry named `k`, if any.
`none` models JS `undefined`. -/
def getD (d : Document) (k : String) : Option Value :=
  (d.find? (fun kv => kv.1 = k)).map (fun kv => kv.2)

/-- `Object.prototype.hasOwnProperty.call(obj, k)`. -/
def hasKey (d : Document) (k : String) : Bool :=
  d.any (fun kv => kv.1 = k)

/-- JS assignment `obj[k] = v`: replaces the value in place if `k` is present
(keeping its position), otherwise appends the new entry at the end. -/
def setKey : Document → String → Value → Document
  | [], k, v => [(k, v)]
  | kv :: rest, k, v =>
      if kv.1 = k then (k, v) :: rest else kv :: setKey rest k v

/-- JS `delete obj[k]`: removes the entry named `k`. -/
def delKey (d : Document) (k : String) : Document :=
  d.filter (fun kv => kv.1 ≠ k)

/-- The field names of a document, in order. -/
def keys (d : Document) : List String :=
  d.map (fun kv => kv.1)

/-- Documents are "ordered-irrelevant mappings" (spec §3): two documents are
equivalent when every field name resolves to the same value in both. -/
def docEquiv (d₁ d₂ : Document) : Prop :=
  ∀ k : String, getD d₁ k = getD d₂ k

/-- An identifier-field selector, `idFields` entry: either an exact field name
(`string`) or a pattern (`RegExp`), the latter embedded as a decidable test on
the field name (`key.match(fieldSelector)`). -/
inductive FieldSelector where
  | exact (name : String) : FieldSelector
  | pattern (test : String → Bool) : FieldSelector

/-- Is `s` a syntactically valid 24-character hexadecimal `ObjectId` string
(the form accepted by the driver's `new ObjectId(string)`)? -/
def isValidOid (s : String) : Bool :=
  s.length == 24 && s.toList.all (fun c =>
    c.isDigit || ('a' ≤ c && c ≤ 'f') || ('A' ≤ c && c ≤ 'F'))

/-- The `parseValue` closure inside `parseStringsIDs` (lines 135-141):
`value instanceof ObjectId` converts the native identifier to its canonical
hex string (`value.toString()`); otherwise `new ObjectId(value)` converts a
valid identifier string to the native identifier and throws a driver
(`BSONError`) for any other value (the closure's declared argument type is
`ObjectId | string`). -/
def parseValue : Value → Except String Value
  | .vOid hex => .ok (.vStr hex)
  | .vStr s =>
      if isValidOid s then .ok (.vOid s)
      else .error "BSONError: input must be a 24 character hex string"
  | _ => .error "BSONError: Argument passed in does not match the accepted types"

/-- The configuration state of one `MongoDataAccess` instance (constructor,
lines 31-40): the rename table `fieldsPropsMap` (stored field name → application
property name, a `Map` built from `Object.entries`, so iterated in insertion
order with unique keys) and the identifier selector list `idFields`. -/
structure MongoDataAccess where
  fieldsProps : List (String × String)
  idFields : List FieldSelector
  collectionName : String

/-- The rename loop of `mapDataToDocument` (lines 104-112): for each
`(field, prop)` of the rename table, when the input `dataObject` has own
property `prop`, run `document[field] = dataObject[prop]; delete document[prop]`.
Reads always come from the untouched input copy `dataObject` (= `d`); writes
mutate `document`, which starts as a copy of `d`.  (`hasOwnProperty` is
equivalent to `getD` returning `some`.) -/
def renameToStored (fieldsProps : List (String × String)) (d : Document) : Document :=
  fieldsProps.foldl
    (fun doc e =>
      match getD d e.2 with
      | some v => delKey (setKey doc e.1 v) e.2
      | none => doc)
    d

/-- The primary-identifier rule of `mapDataToDocument` (lines 113-116):
`const { _id } = document; if (_id == null) delete document["_id"]`.
(`_id == null` holds for JS `null`; an absent `_id` makes the `delete` a
no-op either way.) -/
def dropNullId (doc : Document) : Document :=
  match getD doc "_id" with
  | some Value.vNull => delKey doc "_id"
  | _ => doc

/-- `mapDataToDocument` (lines 102-119), the spec's `toStored`: `null` input
maps to the empty document; otherwise rename application property names to
stored field names per the table, then omit a null `_id`. -/
def mapDataToDocument (fieldsProps : List (String × String)) :
    Option Document → Document
  | none => []
  | some d => dropNullId (renameToStored fieldsProps d)

/-- One application name lookup of `mapDocumentToData` (line 127):
`this.fieldsPropsMap.get(fieldName) ?? fieldName`. -/
def lookupProp (fieldsProps : List (String × String)) (fieldName : String) : String :=
  ((fieldsProps.find? (fun e => e.1 = fieldName)).map (fun e => e.2)).getD fieldName

/-- `mapDocumentToData` (lines 121-132), the spec's `toApplication`: build a
fresh document, writing each field's value under
`fieldsPropsMap.get(fieldName) ?? fieldName`, iterating the input's fields in
order. -/
def mapDocumentToData (fieldsProps : List (String × String)) (document : Document) :
    Document :=
  document.foldl (fun data kv => setKey data (lookupProp fieldsProps kv.1) kv.2) []

/-- The inner selector loop of `parseStringsIDs` (lines 146-156) for one key:
every matching selector reassigns `document[key]` from the value captured
*before* the loop (so with several matches the last match wins, but every
match's conversion runs and may throw).  A pattern match maps `parseValue`
over an array value elementwise; an exact-name match applies `parseValue` to
the whole value, arrays included. -/
def applySelectors (idFields : List FieldSelector) (key : String) (value : Value) :
    Except String Value :=
  idFields.foldlM
    (fun current sel =>
      match sel with
      | .pattern test =>
          if test key then
            match value with
            | .vArr elems => (elems.mapM parseValue).map Value.vArr
            | _ => parseValue value
          else pure current
      | .exact name =>
          if key = name then parseValue value else pure current)
    value

/-- `parseStringsIDs` (lines 134-160), the spec's `coerceIdentifiers`: the
`for (const key in document)` loop runs the selector loop on each field's
value in order; the field set and order are unchanged (assignments only
replace values).  A `BSONError` thrown by any conversion aborts the whole
call. -/
def parseStringsIDs (idFields : List FieldSelector) : Document → Except String Document
  | [] => .ok []
  | kv :: rest => do
      let v ← applySelectors idFields kv.1 kv.2
      let rest' ← parseStringsIDs idFields rest
      pure ((kv.1, v) :: rest')

mutual

/-- JS template-literal conversion `${value}` (used on `document.insertedId`,
line 99): a native identifier renders as its canonical hex string. -/
def jsToString : Value → String
  | .vNull => "null"
  | .vStr s => s
  | .vInt n => toString n
  | .vBool b => if b then "true" else "false"
  | .vOid hex => hex
  | .vArr elems => jsToStringList elems
  | .vDoc _ => "[object Object]"

/-- JS array-to-string: elements joined by commas. -/
def jsToStringList : List Value → String
  | [] => ""
  | [x] => jsToString x
  | x :: xs => jsToString x ++ "," ++ jsToStringList xs

end

/-!
## Facade operations

Each operation is embedded as the request it sends to the driver plus the
transformation applied to the driver's response; the driver itself is a
function argument (an `Except`-valued collaborator whose errors the facade
propagates unchanged).  `drop` is the one operation with up to two driver
round trips, so it also returns the trace of driver calls it performs.
-/

/-- The filter `count` (lines 65-67) hands to `countDocuments`: the caller's
filter verbatim (`filter as Document`, no mapping applied). -/
def MongoDataAccess.countRequest (_m : MongoDataAccess) (filter : Document) :
    Document :=
  filter

/-- `count` (lines 65-67): delegate the caller's filter to the driver's
`countDocuments` and return its count. -/
def MongoDataAccess.countOp (m : MongoDataAccess) (filter : Document)
    (driver : Document → Except String Nat) : Except String Nat :=
  driver (m.countRequest filter)

/-- The filter `delete` (lines 69-71) hands to `deleteMany`: the caller's
filter verbatim (`filter as Document`, no mapping applied). -/
def MongoDataAccess.deleteRequest (_m : MongoDataAccess) (filter : Document) :
    Document :=
  filter

/-- `delete` (lines 69-71): delegate the caller's filter to the driver's
`deleteMany` and return its `deletedCount`. -/
def MongoDataAccess.deleteOp (m : MongoDataAccess) (filter : Document)
    (driver : Document → Except String Nat) : Except String Nat :=
  driver (m.deleteRequest filter)

/-- The document `insert` (lines 95-100) hands to `insertOne`:
`parseStringsIDs(mapDataToDocument(data))` (which may throw on identifier
conversion). -/
def MongoDataAccess.insertRequest (m : MongoDataAccess) (data : Document) :
    Except String Document :=
  parseStringsIDs m.idFields (mapDataToDocument m.fieldsProps (some data))

/-- `insert` (lines 95-100): map and coerce the value, delegate to the
driver's `insertOne`, and return the template-literal string form of the
driver's `insertedId`. -/
def MongoDataAccess.insertOp (m : MongoDataAccess) (data : Document)
    (driver : Document → Except String Value) : Except String String := do
  let parsedData ← m.insertRequest data
  let insertedId ← driver parsedData
  pure (jsToString insertedId)

/-- The filter `select` (lines 162-164) hands to `find`:
`mapDataToDocument(filter ?? {})` — field names renamed, no identifier
coercion. -/
def MongoDataAccess.selectRequest (m : MongoDataAccess) (filter : Option Document) :
    Document :=
  mapDataToDocument m.fieldsProps (some (filter.getD []))

/-- The per-record result mapping of `select` (lines 165-168): for each
returned document, `mapDocumentToData` then `parseStringsIDs`. -/
def MongoDataAccess.selectMapResult (m : MongoDataAccess) (docs : List Document) :
    Except String (List Document) :=
  docs.mapM (fun document => parseStringsIDs m.idFields (mapDocumentToData m.fieldsProps document))

/-- `select` (lines 162-170): map the filter, delegate to the driver's `find`,
map every returned record back. -/
def MongoDataAccess.selectOp (m : MongoDataAccess) (filter : Option Document)
    (driver : Document → Except String (List Document)) :
    Except String (List Document) := do
  m.selectMapResult (← driver (m.selectRequest filter))

/-- The filter `selectOne` (lines 172-177) hands to `findOne`: same mapping as
`select`. -/
def MongoDataAccess.selectOneRequest (m : MongoDataAccess) (filter : Option Document) :
    Document :=
  mapDataToDocument m.fieldsProps (some (filter.getD []))

/-- `selectOne` (lines 172-181): map the filter, delegate to the driver's
`findOne`; a `null` driver result is returned as-is, otherwise the record is
mapped back like `select`'s. -/
def MongoDataAccess.selectOneOp (m : MongoDataAccess) (filter : Option Document)
    (driver : Document → Except String (Option Document)) :
    Except String (Option Document) := do
  match ← driver (m.selectOneRequest filter) with
  | none => pure none
  | some document =>
      (parseStringsIDs m.idFields (mapDocumentToData m.fieldsProps document)).map some

/-- The filter `update` (lines 183-189) hands to `updateMany`:
`mapDataToDocument(filter ?? {})`. -/
def MongoDataAccess.updateRequest (m : MongoDataAccess) (filter : Option Document) :
    Document :=
  mapDataToDocument m.fieldsProps (some (filter.getD []))

/-- `update` (lines 183-190): map the filter, pass `values` to the driver's
`updateMany` as-is, return its `modifiedCount`. -/
def MongoDataAccess.updateOp (m : MongoDataAccess) (filter : Option Document)
    (values : Document) (driver : Document → Document → Except String Nat) :
    Except String Nat :=
  driver (m.updateRequest filter) values

/-- A driver round trip performed by `drop` (the only operation with more than
one). -/
inductive DriverCall where
  | listCollections (nameFilter : String) : DriverCall
  | dropCollection : DriverCall
  deriving DecidableEq

/-- The error message thrown by `drop` on a collection-name collision
(lines 80-84). -/
def MongoDataAccess.dropErrorMsg (m : MongoDataAccess) : String :=
  "More than 1 collection found with name: " ++ m.collectionName

/-- `drop` (lines 73-93): when `sure`, list the collections whose name equals
the configured collection name (`listed` is the driver's reply to that
filter); more than one match throws, exactly one match drops the collection,
zero matches is a no-op; every non-throwing confirmed path returns `true`.
When not `sure`, return `false` with no driver interaction.  The second
component is the trace of driver calls performed. -/
def MongoDataAccess.drop (m : MongoDataAccess) (sure : Bool) (listed : List String) :
    Except String Bool × List DriverCall :=
  if sure then
    if listed.length > 1 then
      (.error m.dropErrorMsg, [.listCollections m.collectionName])
    else if listed.length == 1 then
      (.ok true, [.listCollections m.collectionName, .dropCollection])
    else
      (.ok true, [.listCollections m.collectionName])
  else
    (.ok false, [])

/-- A filter matches a document under the driver's simple equality semantics:
every filter field must be present with an equal value; in particular the
empty filter matches every document. -/
def matchesFilter (filter doc : Document) : Bool :=
  filter.all (fun kv => getD doc kv.1 == some kv.2)

/-!
## The spec's scenario configuration (spec §8)

Rename table `{ "_id": "id", "usr_name": "username" }`, identifier fields
`["_id"]`.
-/

/-- The facade instance of the spec's §8 scenario. -/
def scenarioDA : MongoDataAccess :=
  { fieldsProps := [("_id", "id"), ("usr_name", "username")]
    idFields := [.exact "_id"]
    collectionName := "users" }

/-- The same instance with the identifier selector naming the *application*
field name `id` instead of the stored name `_id`. -/
def scenarioDAAppSel : MongoDataAccess :=
  { fieldsProps := [("_id", "id"), ("usr_name", "username")]
    idFields := [.exact "id"]
    collectionName := "users" }

/-- A concrete syntactically valid 24-hex-character identifier string (the
string form of the scenario's native identifier `X`). -/
def scenarioHex : String := "0123456789abcdef01234567"

/-!
## Heap model for the frame property of `mapDataToDocument`

`mapDataToDocument` mutates JS objects in place (`document[field] = ...`,
`delete document[prop]`), so its no-mutation contract is stated over an
explicit heap of objects: references are indices into a list of documents.
-/

/-- A heap of JS objects. -/
abbrev Heap := List Document

/-- Dereference an object. -/
def heapGet (h : Heap) (r : Nat) : Document :=
  h.getD r []

/-- Overwrite the object at a reference. -/
def heapSet (h : Heap) (r : Nat) (d : Document) : Heap :=
  h.set r d

/-- Heap-level embedding of `mapDataToDocument` (lines 102-119) with the
mutation targets explicit: `Object.assign({}, data)` allocates the fresh copy
`dataObject`, `Object.assign({}, dataObject)` allocates the fresh copy
`document`; the rename loop reads `dataObject` and writes only `document`,
and the null-`_id` rule deletes on `document`.  Returns the final heap and
the reference returned to the caller. -/
def mapDataToDocumentH (fieldsProps : List (String × String)) (h : Heap)
    (dataRef : Nat) : Heap × Nat :=
  let h1 := h ++ [heapGet h dataRef]
  let dataObject := h.length
  let h2 := h1 ++ [heapGet h1 dataObject]
  let document := h1.length
  let h3 := fieldsProps.foldl
    (fun hh e =>
      match getD (heapGet hh dataObject) e.2 with
      | some v => heapSet hh document (delKey (setKey (heapGet hh document) e.1 v) e.2)
      | none => hh)
    h2
  let h4 :=
    match getD (heapGet h3 document) "_id" with
    | some Value.vNull => heapSet h3 document (delKey (heapGet h3 document) "_id")
    | _ => h3
  (h4, document)

/-- Specification artifact for analysing `renameToStored`: the fields of `d`
the rename loop leaves in place — those whose name is not the application
name of a rename entry whose lookup in `d` succeeds. -/
def keptFields (fieldsProps : List (String × String)) (d : Document) : Document :=
  d.filter (fun kv =>
    !(fieldsProps.any (fun e => decide (e.2 = kv.1) && (getD d e.2).isSome)))

/-- Specification artifact for analysing `renameToStored`: the fields the
rename loop appends — one stored-named field per rename entry whose
application name is present in `d`, in table order. -/
def renamedFields (fieldsProps : List (String × String)) (d : Document) : Document :=
  fieldsProps.filterMap (fun e => (getD d e.2).map (fun v => (e.1, v)))

/-!
## Basic lemmas about document operations
-/

@[simp] theorem getD_nil (k : String) : getD [] k = none := rfl

theorem getD_cons (kv : String × Value) (d : Document) (k : String) :
    getD (kv :: d) k = if kv.1 = k then some kv.2 else getD d k := by
  simp only [getD, List.find?_cons]
  by_cases h : kv.1 = k <;> simp [h]

@[simp] theorem hasKey_nil (k : String) : hasKey [] k = false := rfl

theorem hasKey_cons (kv : String × Value) (d : Document) (k : String) :
    hasKey (kv :: d) k = (kv.1 = k || hasKey d k) := by
  simp [hasKey, List.any_cons]

theorem hasKey_iff_mem_keys (d : Document) (k : String) :
    hasKey d k = true ↔ k ∈ keys d := by
  induction d with
  | nil => simp [keys]
  | cons kv rest ih =>
      simp [hasKey_cons, keys, ih]
      constructor
      · rintro (h | h)
        · exact Or.inl h.symm
        · exact Or.inr (by simpa [keys] using h)
      · rintro (h | h)
        · exact Or.inl h.symm
        · exact Or.inr (by simpa [keys] using h)

theorem hasKey_eq_false_iff (d : Document) (k : String) :
    hasKey d k = false ↔ getD d k = none := by
  induction d with
  | nil => simp
  | cons kv rest ih =>
      rw [hasKey_cons, getD_cons]
      by_cases h : kv.1 = k <;> simp [h, ih]

theorem getD_isSome_of_mem (d : Document) (kv : String × Value) (h : kv ∈ d) :
    (getD d kv.1).isSome := by
  induction d with
  | nil => simp at h
  | cons hd rest ih =>
      rw [getD_cons]
      rcases List.mem_cons.mp h with h' | h'
      · subst h'; simp
      · by_cases hh : hd.1 = kv.1 <;> simp [hh, ih h']

theorem getD_setKey_self (d : Document) (k : String) (v : Value) :
    getD (setKey d k v) k = some v := by
  induction d with
  | nil => simp [setKey, getD_cons]
  | cons kv rest ih =>
      rw [setKey]
      by_cases h : kv.1 = k
      · simp [h, getD_cons]
      · simp [h, getD_cons, ih]

theorem getD_setKey_ne (d : Document) (k k' : String) (v : Value) (h : k' ≠ k) :
    getD (setKey d k v) k' = getD d k' := by
  induction d with
  | nil =>
      rw [setKey, getD_cons, if_neg (fun hh : k = k' => h hh.symm)]
  | cons kv rest ih =>
      rw [setKey]
      by_cases hk : kv.1 = k
      · rw [if_pos hk, getD_cons, getD_cons,
          if_neg (fun hh : k = k' => h hh.symm),
          if_neg (fun hh : kv.1 = k' => h (hk.symm.trans hh).symm)]
      · rw [if_neg hk, getD_cons, getD_cons, ih]

theorem setKey_of_not_hasKey (d : Document) (k : String) (v : Value)
    (h : hasKey d k = false) : setKey d k v = d ++ [(k, v)] := by
  induction d with
  | nil => simp [setKey]
  | cons kv rest ih =>
      rw [hasKey_cons] at h
      rw [setKey]
      simp only [Bool.or_eq_false_iff, decide_eq_false_iff_not] at h
      simp [h.1, ih h.2]

@[simp] theorem delKey_nil (k : String) : delKey [] k = [] := rfl

theorem delKey_cons (kv : String × Value) (d : Document) (k : String) :
    delKey (kv :: d) k = if kv.1 = k then delKey d k else kv :: delKey d k := by
  simp only [delKey, List.filter_cons]
  by_cases h : kv.1 = k <;> simp [h]

theorem getD_delKey_self (d : Document) (k : String) : getD (delKey d k) k = none := by
  induction d with
  | nil => simp
  | cons kv rest ih =>
      rw [delKey_cons]
      by_cases h : kv.1 = k <;> simp [h, getD_cons, ih]

theorem getD_delKey_ne (d : Document) (k k' : String) (h : k' ≠ k) :
    getD (delKey d k) k' = getD d k' := by
  induction d with
  | nil => simp
  | cons kv rest ih =>
      rw [delKey_cons]
      by_cases hk : kv.1 = k
      · rw [if_pos hk, ih, getD_cons,
          if_neg (fun hh : kv.1 = k' => h (hk.symm.trans hh).symm)]
      · rw [if_neg hk, getD_cons, getD_cons, ih]

theorem hasKey_delKey_self (d : Document) (k : String) :
    hasKey (delKey d k) k = false := by
  rw [hasKey_eq_false_iff]
  exact getD_delKey_self d k

theorem delKey_append (d₁ d₂ : Document) (k : String) :
    delKey (d₁ ++ d₂) k = delKey d₁ k ++ delKey d₂ k :=
  List.filter_append _ _

theorem delKey_of_not_hasKey (d : Document) (k : String) (h : hasKey d k = false) :
    delKey d k = d := by
  induction d with
  | nil => rfl
  | cons kv rest ih =>
      rw [hasKey_cons] at h
      simp only [Bool.or_eq_false_iff, decide_eq_false_iff_not] at h
      rw [delKey_cons]
      simp [h.1, ih h.2]

/-- A successful `parseStringsIDs` never changes the field names or their
order: only values are reassigned. -/
theorem parseStringsIDs_ok_keys (idFields : List FieldSelector) (d d' : Document)
    (h : parseStringsIDs idFields d = .ok d') : keys d' = keys d := by
  induction d generalizing d' with
  | nil =>
      simp only [parseStringsIDs] at h
      cases h
      rfl
  | cons kv rest ih =>
      simp only [parseStringsIDs] at h
      cases ha : applySelectors idFields kv.1 kv.2 with
      | error e => rw [ha] at h; exact absurd h (by simp [Bind.bind, Except.bind])
      | ok v =>
          rw [ha] at h
          cases hr : parseStringsIDs idFields rest with
          | error e => rw [hr] at h; exact absurd h (by simp [Bind.bind, Except.bind])
          | ok rest' =>
              rw [hr] at h
              have h' : (kv.1, v) :: rest' = d' := by
                simpa [Bind.bind, Except.bind, pure, Except.pure] using h
              subst h'
              simpa [keys] using ih rest' hr

/-- A successful elementwise identifier conversion (`value.map(parseValue)`
on an array-valued field) preserves the array's length. -/
theorem mapM_parseValue_length (xs ys : List Value)
    (h : xs.mapM parseValue = .ok ys) : ys.length = xs.length := by
  rw [← List.mapM'_eq_mapM] at h
  induction xs generalizing ys with
  | nil =>
      rw [List.mapM'_nil] at h
      cases h
      rfl
  | cons x rest ih =>
      rw [List.mapM'_cons] at h
      cases hx : parseValue x with
      | error e => rw [hx] at h; exact absurd h (by simp [Bind.bind, Except.bind])
      | ok y =>
          rw [hx] at h
          cases hr : rest.mapM' parseValue with
          | error e => rw [hr] at h; exact absurd h (by simp [Bind.bind, Except.bind])
          | ok ys' =>
              rw [hr] at h
              have h' : y :: ys' = ys := by
                simpa [Bind.bind, Except.bind, pure, Except.pure] using h
              subst h'
              simp [ih ys' hr]

theorem keys_setKey_mem (d : Document) (k k' : String) (v : Value)
    (h : k' ∈ keys (setKey d k v)) : k' ∈ keys d ∨ k' = k := by
  induction d with
  | nil => simp [setKey, keys] at h; exact Or.inr h
  | cons kv rest ih =>
      rw [setKey] at h
      by_cases hk : kv.1 = k
      · simp only [hk] at h
        simp [keys] at h ⊢
        rcases h with h | h
        · exact Or.inr h
        · exact Or.inl (Or.inr h)
      · simp only [hk, if_false] at h
        simp [keys] at h ⊢
        rcases h with h | h
        · exact Or.inl (Or.inl h)
        · rcases ih (by simpa [keys] using h) with h' | h'
          · exact Or.inl (Or.inr (by simpa [keys] using h'))
          · exact Or.inr h'

theorem hasKey_append (d₁ d₂ : Document) (k : String) :
    hasKey (d₁ ++ d₂) k = (hasKey d₁ k || hasKey d₂ k) :=
  List.any_append

theorem hasKey_delKey_of_false (d : Document) (k k' : String)
    (h : hasKey d k' = false) : hasKey (delKey d k) k' = false := by
  cases hval : hasKey (delKey d k) k' with
  | false => rfl
  | true =>
      rcases List.any_eq_true.mp hval with ⟨kv, hmem, hkv⟩
      have : hasKey d k' = true :=
        List.any_eq_true.mpr ⟨kv, List.mem_of_mem_filter hmem, hkv⟩
      rw [this] at h
      cases h

theorem mem_of_getD (d : Document) (k : String) (v : Value)
    (h : getD d k = some v) : (k, v) ∈ d := by
  rcases Option.map_eq_some'.mp h with ⟨kv, hfind, hval⟩
  have hmem := List.mem_of_find?_eq_some hfind
  have hkey : kv.1 = k := by simpa using List.find?_some hfind
  have : kv = (k, v) := by
    cases kv
    simp_all
  rw [← this]
  exact hmem

theorem getD_unique (d : Document) (k : String) (v : Value) (kv : String × Value)
    (hdk : (keys d).Nodup) (hmem : kv ∈ d) (hkey : kv.1 = k)
    (hget : getD d k = some v) : kv.2 = v := by
  induction d with
  | nil => cases hmem
  | cons hd rest ih =>
      rw [getD_cons] at hget
      rw [keys] at hdk
      simp only [List.map_cons, List.nodup_cons] at hdk
      rcases List.mem_cons.mp hmem with h' | h'
      · subst h'
        rw [if_pos hkey] at hget
        exact Option.some.inj hget
      · have hne : ¬ hd.1 = k := by
          intro hh
          exact hdk.1 (hh ▸ (hkey ▸ List.mem_map_of_mem Prod.fst h'))
        rw [if_neg hne] at hget
        exact ih (by simpa [keys] using hdk.2) h' hget

theorem lookupProp_of_mem (fieldsProps : List (String × String))
    (e : String × String) (hfst : (fieldsProps.map Prod.fst).Nodup)
    (he : e ∈ fieldsProps) : lookupProp fieldsProps e.1 = e.2 := by
  induction fieldsProps with
  | nil => cases he
  | cons e' rest ih =>
      simp only [List.map_cons, List.nodup_cons] at hfst
      rcases List.mem_cons.mp he with h' | h'
      · subst h'
        simp [lookupProp, List.find?_cons]
      · have hne : ¬ e'.1 = e.1 := by
          intro hh
          exact hfst.1 (hh ▸ List.mem_map_of_mem Prod.fst h')
        have hstep : lookupProp (e' :: rest) e.1 = lookupProp rest e.1 := by
          simp [lookupProp, List.find?_cons, hne]
        rw [hstep]
        exact ih hfst.2 h'

theorem lookupProp_self (fieldsProps : List (String × String)) (k : String)
    (h : k ∉ fieldsProps.map Prod.fst) : lookupProp fieldsProps k = k := by
  have hnone : fieldsProps.find? (fun e => e.1 = k) = none :=
    List.find?_eq_none.mpr (fun e hmem hp => by
      have he : e.1 = k := of_decide_eq_true hp
      exact h (he ▸ List.mem_map_of_mem Prod.fst hmem))
  simp [lookupProp, hnone]

theorem dropNullId_eq_self (doc : Document)
    (h : getD doc "_id" ≠ some Value.vNull) : dropNullId doc = doc := by
  unfold dropNullId
  split
  · next heq => exact absurd heq h
  · rfl

/-- Generalized fold form of `mapDocumentToData`: every key of the result is
either a key of the accumulator or the rename-image of a processed key. -/
theorem keys_foldl_setKey_mem (fieldsProps : List (String × String)) (k : String) :
    ∀ (l : Document) (acc : Document),
      k ∈ keys (l.foldl (fun data kv => setKey data (lookupProp fieldsProps kv.1) kv.2) acc) →
      k ∈ keys acc ∨ ∃ kv ∈ l, k = lookupProp fieldsProps kv.1 := by
  intro l
  induction l with
  | nil => intro acc h; exact Or.inl h
  | cons kv rest ih =>
      intro acc h
      rw [List.foldl_cons] at h
      rcases ih _ h with h' | ⟨kv', hmem, hk⟩
      · rcases keys_setKey_mem _ _ _ _ h' with h'' | h''
        · exact Or.inl h''
        · exact Or.inr ⟨kv, List.mem_cons_self _ _, h''⟩
      · exact Or.inr ⟨kv', List.mem_cons_of_mem _ hmem, hk⟩

/-- Every key of `mapDocumentToData`'s output is the rename-image
(`fieldsPropsMap.get(field) ?? field`) of some input key: each stored field
name with a rename entry is replaced by its application name. -/
theorem keys_mapDocumentToData_mem (fieldsProps : List (String × String))
    (doc : Document) (k : String)
    (h : k ∈ keys (mapDocumentToData fieldsProps doc)) :
    ∃ kv ∈ doc, k = lookupProp fieldsProps kv.1 := by
  rcases keys_foldl_setKey_mem fieldsProps k doc [] h with h' | h'
  · cases h'
  · exact h'

/-- Pointwise characterization of `mapDocumentToData`'s fold: since `setKey`
overwrites in place, the value at an output key is the one written by the
*last* input field whose rename-image is that key; otherwise the accumulator
is unchanged at that key. -/
theorem getD_foldl_setKey (fieldsProps : List (String × String)) (q : String) :
    ∀ (l : Document) (acc : Document),
      getD (l.foldl (fun data kv => setKey data (lookupProp fieldsProps kv.1) kv.2) acc) q =
        (match l.reverse.find? (fun kv => lookupProp fieldsProps kv.1 = q) with
          | some kv => some kv.2
          | none => getD acc q) := by
  intro l
  induction l with
  | nil => intro acc; simp
  | cons kv rest ih =>
      intro acc
      rw [List.foldl_cons, ih, List.reverse_cons, List.find?_append]
      cases hfind : rest.reverse.find? (fun kv => lookupProp fieldsProps kv.1 = q) with
      | some kv' => rfl
      | none =>
          rw [Option.none_or]
          by_cases hq : lookupProp fieldsProps kv.1 = q
          · have hone : List.find? (fun kv => lookupProp fieldsProps kv.1 = q) [kv] =
                some kv := by
              simp [List.find?_cons, hq]
            rw [hone, ← hq]
            exact getD_setKey_self _ _ _
          · have hone : List.find? (fun kv => lookupProp fieldsProps kv.1 = q) [kv] =
                none := by
              simp [List.find?_cons, hq]
            rw [hone]
            exact getD_setKey_ne _ _ _ _ (fun hh => hq hh.symm)

/-- `mapDocumentToData` pointwise: the value at output key `q` comes from the
last input field whose rename-image is `q`, if any. -/
theorem getD_mapDocumentToData (fieldsProps : List (String × String))
    (doc : Document) (q : String) :
    getD (mapDocumentToData fieldsProps doc) q =
      (doc.reverse.find? (fun kv => lookupProp fieldsProps kv.1 = q)).map
        (fun kv => kv.2) := by
  rw [mapDocumentToData, getD_foldl_setKey]
  cases doc.reverse.find? (fun kv => lookupProp fieldsProps kv.1 = q) <;> rfl

/-- The rename loop of `renameToStored`, generalized over a suffix `l` of the
table and an accumulator split `pre ++ app`: entries are read from the fixed
input `d`; processed application-named fields are deleted from `pre` and the
corresponding stored-named fields appended after `app`, in table order. -/
theorem renameToStored_loop (d : Document) :
    ∀ (l : List (String × String)) (pre app : Document),
      (l.map Prod.fst).Nodup →
      (∀ e ∈ l, hasKey pre e.1 = false ∧ hasKey app e.1 = false) →
      (∀ e ∈ l, ∀ v, getD d e.2 = some v →
        hasKey app e.2 = false ∧ e.2 ∉ l.map Prod.fst) →
      l.foldl (fun doc e =>
          match getD d e.2 with
          | some v => delKey (setKey doc e.1 v) e.2
          | none => doc) (pre ++ app) =
        pre.filter (fun kv =>
            !(l.any (fun e => decide (e.2 = kv.1) && (getD d e.2).isSome)))
          ++ app ++ l.filterMap (fun e => (getD d e.2).map (fun v => (e.1, v))) := by
  intro l
  induction l with
  | nil =>
      intro pre app _ _ _
      simp
  | cons e l ih =>
      intro pre app hnd hfresh hprop
      have hnd' : e.1 ∉ l.map Prod.fst ∧ (l.map Prod.fst).Nodup := by
        rw [List.map_cons] at hnd
        exact List.nodup_cons.mp hnd
      rw [List.foldl_cons]
      cases he : getD d e.2 with
      | none =>
          have hres := ih pre app hnd'.2
            (fun e' he' => hfresh e' (List.mem_cons_of_mem _ he'))
            (fun e' he' v hv =>
              ⟨(hprop e' (List.mem_cons_of_mem _ he') v hv).1,
               List.not_mem_of_not_mem_cons
                 (by simpa using (hprop e' (List.mem_cons_of_mem _ he') v hv).2)⟩)
          refine hres.trans ?_
          have hfiltereq :
              pre.filter (fun kv =>
                !(l.any (fun e => decide (e.2 = kv.1) && (getD d e.2).isSome))) =
              pre.filter (fun kv =>
                !((e :: l).any (fun e => decide (e.2 = kv.1) && (getD d e.2).isSome))) := by
            refine (List.filter_congr (fun kv _ => ?_)).symm
            simp [List.any_cons, he]
          rw [hfiltereq, List.filterMap_cons, he, Option.map_none']
      | some v =>
          have hfr := hfresh e (List.mem_cons_self e l)
          have hpr := hprop e (List.mem_cons_self e l) v he
          have hne12 : e.2 ≠ e.1 := by
            intro hh
            exact hpr.2 (by simp [hh])
          have hsplit : delKey (setKey (pre ++ app) e.1 v) e.2 =
              delKey pre e.2 ++ (app ++ [(e.1, v)]) := by
            rw [setKey_of_not_hasKey _ _ _
              (by rw [hasKey_append, hfr.1, hfr.2]; rfl)]
            rw [List.append_assoc, delKey_append]
            have happ : delKey (app ++ [(e.1, v)]) e.2 = app ++ [(e.1, v)] := by
              refine delKey_of_not_hasKey _ _ ?_
              rw [hasKey_append, hpr.1]
              simp [hasKey, Ne.symm hne12]
            rw [happ]
          have hres := ih (delKey pre e.2) (app ++ [(e.1, v)]) hnd'.2
            (fun e' he' =>
              ⟨hasKey_delKey_of_false _ _ _ (hfresh e' (List.mem_cons_of_mem _ he')).1,
               by
                rw [hasKey_append, (hfresh e' (List.mem_cons_of_mem _ he')).2]
                have hne : e'.1 ≠ e.1 := by
                  intro hh
                  exact hnd'.1 (hh ▸ List.mem_map_of_mem Prod.fst he')
                simp [hasKey, Ne.symm hne]⟩)
            (fun e' he' v' hv' =>
              ⟨by
                rw [hasKey_append, (hprop e' (List.mem_cons_of_mem _ he') v' hv').1]
                have hne : e'.2 ≠ e.1 := by
                  intro hh
                  exact (hprop e' (List.mem_cons_of_mem _ he') v' hv').2 (by simp [hh])
                simp [hasKey, Ne.symm hne],
               List.not_mem_of_not_mem_cons
                 (by simpa using (hprop e' (List.mem_cons_of_mem _ he') v' hv').2)⟩)
          have hcong : List.foldl (fun doc e =>
              match getD d e.2 with
              | some v => delKey (setKey doc e.1 v) e.2
              | none => doc) (delKey (setKey (pre ++ app) e.1 v) e.2) l =
              List.foldl (fun doc e =>
                match getD d e.2 with
                | some v => delKey (setKey doc e.1 v) e.2
                | none => doc) (delKey pre e.2 ++ (app ++ [(e.1, v)])) l := by
            rw [hsplit]
          refine hcong.trans (hres.trans ?_)
          have hfiltereq :
              (delKey pre e.2).filter (fun kv =>
                !(l.any (fun e => decide (e.2 = kv.1) && (getD d e.2).isSome))) =
              pre.filter (fun kv =>
                !((e :: l).any (fun e => decide (e.2 = kv.1) && (getD d e.2).isSome))) := by
            rw [delKey, List.filter_filter]
            refine List.filter_congr (fun kv _ => ?_)
            by_cases hkv : kv.1 = e.2
            · simp [List.any_cons, he, hkv]
            · have hne' : ¬ e.2 = kv.1 := fun hh => hkv hh.symm
              simp [List.any_cons, he, hkv, hne']
          rw [hfiltereq, List.filterMap_cons, he, Option.map_some']
          simp [List.append_assoc]

/-- For a rename table with unique stored names and an input document whose
keys avoid all stored names, the rename loop keeps the non-renamed fields in
place and appends the renamed fields in table order. -/
theorem renameToStored_eq (fieldsProps : List (String × String)) (d : Document)
    (hfst : (fieldsProps.map Prod.fst).Nodup)
    (hdisj : ∀ k ∈ keys d, k ∉ fieldsProps.map Prod.fst) :
    renameToStored fieldsProps d = keptFields fieldsProps d ++ renamedFields fieldsProps d := by
  have hkeys : ∀ e ∈ fieldsProps, hasKey d e.1 = false := by
    intro e he
    cases hval : hasKey d e.1 with
    | false => rfl
    | true =>
        exact absurd (List.mem_map_of_mem Prod.fst he)
          (hdisj e.1 ((hasKey_iff_mem_keys d e.1).mp hval))
  have hprop : ∀ e ∈ fieldsProps, ∀ v, getD d e.2 = some v →
      hasKey ([] : Document) e.2 = false ∧ e.2 ∉ fieldsProps.map Prod.fst := by
    intro e he v hv
    refine ⟨rfl, ?_⟩
    have hmem : e.2 ∈ keys d := by
      rw [← hasKey_iff_mem_keys]
      cases hk : hasKey d e.2 with
      | true => rfl
      | false =>
          rw [hasKey_eq_false_iff] at hk
          rw [hk] at hv
          cases hv
    exact hdisj e.2 hmem
  have := renameToStored_loop d fieldsProps d []
    hfst (fun e he => ⟨hkeys e he, rfl⟩) hprop
  simpa [keptFields, renamedFields] using this

/-- C5 amended, core form: for a rename table with unique stored names, a
document with unique keys all avoiding the table's stored names, and no null
post-rename `_id`, `toApplication` after `toStored` restores the document as
an ordered-irrelevant mapping. -/
theorem roundtrip_docEquiv (fieldsProps : List (String × String)) (d : Document)
    (hfst : (fieldsProps.map Prod.fst).Nodup)
    (hdk : (keys d).Nodup)
    (hdisj : ∀ k ∈ keys d, k ∉ fieldsProps.map Prod.fst)
    (hid : getD (renameToStored fieldsProps d) "_id" ≠ some Value.vNull) :
    docEquiv (mapDocumentToData fieldsProps (mapDataToDocument fieldsProps (some d))) d := by
  intro q
  have hmap : mapDataToDocument fieldsProps (some d) =
      keptFields fieldsProps d ++ renamedFields fieldsProps d := by
    show dropNullId (renameToStored fieldsProps d) = _
    rw [dropNullId_eq_self _ hid, renameToStored_eq fieldsProps d hfst hdisj]
  rw [hmap, getD_mapDocumentToData, List.reverse_append, List.find?_append]
  by_cases hcase : ∃ e ∈ fieldsProps, e.2 = q ∧ (getD d e.2).isSome
  · obtain ⟨e₀, he₀, hq, hsome⟩ := hcase
    obtain ⟨v, hv⟩ := Option.isSome_iff_exists.mp hsome
    have hdq : getD d q = some v := hq ▸ hv
    have hex : ∃ kv ∈ (renamedFields fieldsProps d).reverse,
        (fun kv : String × Value => decide (lookupProp fieldsProps kv.1 = q)) kv = true := by
      refine ⟨(e₀.1, v), List.mem_reverse.mpr ?_, ?_⟩
      · exact List.mem_filterMap.mpr ⟨e₀, he₀, by rw [hv]; rfl⟩
      · simp [lookupProp_of_mem fieldsProps e₀ hfst he₀, hq]
    obtain ⟨kv, hfind⟩ := Option.isSome_iff_exists.mp (List.find?_isSome.mpr hex)
    have hvals : kv.2 = v := by
      have hmemB := List.mem_reverse.mp (List.mem_of_find?_eq_some hfind)
      obtain ⟨e', he', heq⟩ := List.mem_filterMap.mp hmemB
      obtain ⟨u, hu, hkv⟩ := Option.map_eq_some'.mp heq
      have hpred := List.find?_some hfind
      simp only [decide_eq_true_eq] at hpred
      have hk1 : kv.1 = e'.1 := by rw [← hkv]
      have he'q : e'.2 = q := by
        rw [hk1] at hpred
        rw [lookupProp_of_mem fieldsProps e' hfst he'] at hpred
        exact hpred
      have : getD d q = some u := he'q ▸ hu
      have huv : u = v := Option.some.inj (this.symm.trans hdq)
      rw [← hkv, huv]
    rw [hfind]
    rw [show (some kv).or ((keptFields fieldsProps d).reverse.find?
      (fun kv => lookupProp fieldsProps kv.1 = q)) = some kv from rfl]
    rw [hdq]
    simpa using hvals
  · have hBnone : (renamedFields fieldsProps d).reverse.find?
        (fun kv => lookupProp fieldsProps kv.1 = q) = none := by
      refine List.find?_eq_none.mpr (fun kv hkv hpred => ?_)
      obtain ⟨e', he', heq⟩ := List.mem_filterMap.mp (List.mem_reverse.mp hkv)
      obtain ⟨u, hu, hkveq⟩ := Option.map_eq_some'.mp heq
      have hk1 : kv.1 = e'.1 := by rw [← hkveq]
      have hpred' := hpred
      simp only [decide_eq_true_eq] at hpred'
      rw [hk1, lookupProp_of_mem fieldsProps e' hfst he'] at hpred'
      exact hcase ⟨e', he', hpred', by rw [hu]; rfl⟩
    rw [hBnone, Option.none_or]
    have hApred : ∀ kv : String × Value, kv ∈ keptFields fieldsProps d →
        (lookupProp fieldsProps kv.1 = q) = (kv.1 = q) := by
      intro kv hkv
      have hmemd : kv ∈ d := List.mem_of_mem_filter hkv
      have hself : lookupProp fieldsProps kv.1 = kv.1 :=
        lookupProp_self fieldsProps kv.1
          (hdisj kv.1 (List.mem_map_of_mem (fun kv => kv.1) hmemd))
      rw [hself]
    cases hdq : getD d q with
    | some v =>
        have hmemd : (q, v) ∈ d := mem_of_getD d q v hdq
        have hP : (q, v) ∈ keptFields fieldsProps d := by
          rw [keptFields, List.mem_filter]
          refine ⟨hmemd, ?_⟩
          have hany : (fieldsProps.any
              (fun e => decide (e.2 = q) && (getD d e.2).isSome)) = false := by
            rw [List.any_eq_false]
            intro e he
            intro hc
            simp only [Bool.and_eq_true, decide_eq_true_eq] at hc
            exact hcase ⟨e, he, hc.1, hc.2⟩
          simp [hany]
        have hex : ∃ kv ∈ (keptFields fieldsProps d).reverse,
            (fun kv : String × Value => decide (lookupProp fieldsProps kv.1 = q)) kv = true := by
          refine ⟨(q, v), List.mem_reverse.mpr hP, ?_⟩
          simp [hApred (q, v) hP]
        obtain ⟨kv, hfind⟩ := Option.isSome_iff_exists.mp (List.find?_isSome.mpr hex)
        have hmemA := List.mem_reverse.mp (List.mem_of_find?_eq_some hfind)
        have hkey : kv.1 = q := by
          have hpred := List.find?_some hfind
          simp only [decide_eq_true_eq] at hpred
          rw [hApred kv hmemA] at hpred
          exact hpred
        have hval : kv.2 = v :=
          getD_unique d q v kv hdk (List.mem_of_mem_filter hmemA) hkey hdq
        rw [hfind]
        simpa using hval
    | none =>
        have hAnone : (keptFields fieldsProps d).reverse.find?
            (fun kv => lookupProp fieldsProps kv.1 = q) = none := by
          refine List.find?_eq_none.mpr (fun kv hkv hpred => ?_)
          have hmemA := List.mem_reverse.mp hkv
          have hpred' := hpred
          simp only [decide_eq_true_eq] at hpred'
          rw [hApred kv hmemA] at hpred'
          have hkey : kv.1 = q := hpred'
          have := getD_isSome_of_mem d kv (List.mem_of_mem_filter hmemA)
          rw [hkey, hdq] at this
          cases this
        rw [hAnone]
        rfl

/-!
## Heap lemmas
-/

theorem heapGet_append_lt (h : Heap) (l : List Document) (r : Nat)
    (hr : r < h.length) : heapGet (h ++ l) r = heapGet h r := by
  induction h generalizing r with
  | nil => cases hr
  | cons a h ih =>
      cases r with
      | zero => rfl
      | succ r => exact ih r (Nat.lt_of_succ_lt_succ hr)

theorem heapGet_append_self (h : Heap) (l : List Document) (d : Document) :
    heapGet (h ++ d :: l) h.length = d := by
  induction h with
  | nil => rfl
  | cons a h ih => exact ih

theorem heapGet_set_self (h : Heap) (r : Nat) (d : Document)
    (hr : r < h.length) : heapGet (heapSet h r d) r = d := by
  induction h generalizing r with
  | nil => cases hr
  | cons a h ih =>
      cases r with
      | zero => rfl
      | succ r => exact ih r (Nat.lt_of_succ_lt_succ hr)

theorem heapGet_set_ne (h : Heap) (r r' : Nat) (d : Document)
    (hne : r' ≠ r) : heapGet (heapSet h r d) r' = heapGet h r' := by
  induction h generalizing r r' with
  | nil => rfl
  | cons a h ih =>
      cases r with
      | zero =>
          cases r' with
          | zero => exact absurd rfl hne
          | succ r' => rfl
      | succ r =>
          cases r' with
          | zero => rfl
          | succ r' => exact ih r r' (fun hh => hne (congrArg Nat.succ hh))

/-- The rename loop of the heap embedding writes only the `document` slot. -/
theorem mapDataH_loop_frame (dObj doc : Nat) :
    ∀ (l : List (String × String)) (hh : Heap) (r : Nat), r ≠ doc →
      heapGet (l.foldl (fun hh e =>
        match getD (heapGet hh dObj) e.2 with
        | some v => heapSet hh doc (delKey (setKey (heapGet hh doc) e.1 v) e.2)
        | none => hh) hh) r = heapGet hh r := by
  intro l
  induction l with
  | nil => intro hh r _; rfl
  | cons e l ih =>
      intro hh r hr
      rw [List.foldl_cons]
      cases hm : getD (heapGet hh dObj) e.2 with
      | none => exact ih hh r hr
      | some v =>
          exact (ih _ r hr).trans (heapGet_set_ne hh doc r _ hr)

/-- The rename loop of the heap embedding preserves the heap's size. -/
theorem mapDataH_loop_length (dObj doc : Nat) :
    ∀ (l : List (String × String)) (hh : Heap),
      (l.foldl (fun hh e =>
        match getD (heapGet hh dObj) e.2 with
        | some v => heapSet hh doc (delKey (setKey (heapGet hh doc) e.1 v) e.2)
        | none => hh) hh).length = hh.length := by
  intro l
  induction l with
  | nil => intro hh; rfl
  | cons e l ih =>
      intro hh
      rw [List.foldl_cons]
      cases hm : getD (heapGet hh dObj) e.2 with
      | none => exact ih hh
      | some v =>
          exact (ih _).trans (by simp [heapSet])

/-- The rename loop of the heap embedding computes, in the `document` slot,
exactly the pure rename loop of `renameToStored` applied to the input read
from the (never-written) `dataObject` slot. -/
theorem mapDataH_loop_doc (dObj doc : Nat) (hne : dObj ≠ doc) (d : Document) :
    ∀ (l : List (String × String)) (hh : Heap),
      doc < hh.length → heapGet hh dObj = d →
      heapGet (l.foldl (fun hh e =>
        match getD (heapGet hh dObj) e.2 with
        | some v => heapSet hh doc (delKey (setKey (heapGet hh doc) e.1 v) e.2)
        | none => hh) hh) doc =
      l.foldl (fun docAcc e =>
        match getD d e.2 with
        | some v => delKey (setKey docAcc e.1 v) e.2
        | none => docAcc) (heapGet hh doc) := by
  intro l
  induction l with
  | nil => intro hh _ _; rfl
  | cons e l ih =>
      intro hh hlen hdObj
      rw [List.foldl_cons, List.foldl_cons]
      cases hm : getD d e.2 with
      | none =>
          rw [hdObj, hm]
          exact ih hh hlen hdObj
      | some v =>
          rw [hdObj, hm]
          have hlen' : doc <
              (heapSet hh doc (delKey (setKey (heapGet hh doc) e.1 v) e.2)).length := by
            simp only [heapSet, List.length_set]
            exact hlen
          have hdObj' : heapGet
              (heapSet hh doc (delKey (setKey (heapGet hh doc) e.1 v) e.2)) dObj = d := by
            rw [heapGet_set_ne _ _ _ _ hne]
            exact hdObj
          have hres := ih (heapSet hh doc (delKey (setKey (heapGet hh doc) e.1 v) e.2))
            hlen' hdObj'
          rw [heapGet_set_self _ _ _ hlen] at hres
          exact hres

/-- After the rename loop and the null-`_id` rule, every heap slot other than
`document` is untouched. -/
theorem mapDataH_tail_frame (fieldsProps : List (String × String))
    (dObj doc : Nat) (h2 : Heap) (r : Nat) (hr : r ≠ doc) :
    heapGet
      (match getD (heapGet (fieldsProps.foldl (fun hh e =>
          match getD (heapGet hh dObj) e.2 with
          | some v => heapSet hh doc (delKey (setKey (heapGet hh doc) e.1 v) e.2)
          | none => hh) h2) doc) "_id" with
        | some Value.vNull =>
            heapSet (fieldsProps.foldl (fun hh e =>
              match getD (heapGet hh dObj) e.2 with
              | some v => heapSet hh doc (delKey (setKey (heapGet hh doc) e.1 v) e.2)
              | none => hh) h2) doc
              (delKey (heapGet (fieldsProps.foldl (fun hh e =>
                match getD (heapGet hh dObj) e.2 with
                | some v => heapSet hh doc (delKey (setKey (heapGet hh doc) e.1 v) e.2)
                | none => hh) h2) doc) "_id")
        | _ => fieldsProps.foldl (fun hh e =>
            match getD (heapGet hh dObj) e.2 with
            | some v => heapSet hh doc (delKey (setKey (heapGet hh doc) e.1 v) e.2)
            | none => hh) h2) r = heapGet h2 r := by
  split
  · exact (heapGet_set_ne _ _ _ _ hr).trans
      (mapDataH_loop_frame dObj doc fieldsProps h2 r hr)
  · exact mapDataH_loop_frame dObj doc fieldsProps h2 r hr

/-- After the rename loop and the null-`_id` rule, the `document` slot holds
exactly the pure `mapDataToDocument` of the input value. -/
theorem mapDataH_tail_doc (fieldsProps : List (String × String))
    (dObj doc : Nat) (h2 : Heap) (d : Document) (hne : dObj ≠ doc)
    (hlen : doc < h2.length) (hdObj : heapGet h2 dObj = d)
    (hdoc : heapGet h2 doc = d) :
    heapGet
      (match getD (heapGet (fieldsProps.foldl (fun hh e =>
          match getD (heapGet hh dObj) e.2 with
          | some v => heapSet hh doc (delKey (setKey (heapGet hh doc) e.1 v) e.2)
          | none => hh) h2) doc) "_id" with
        | some Value.vNull =>
            heapSet (fieldsProps.foldl (fun hh e =>
              match getD (heapGet hh dObj) e.2 with
              | some v => heapSet hh doc (delKey (setKey (heapGet hh doc) e.1 v) e.2)
              | none => hh) h2) doc
              (delKey (heapGet (fieldsProps.foldl (fun hh e =>
                match getD (heapGet hh dObj) e.2 with
                | some v => heapSet hh doc (delKey (setKey (heapGet hh doc) e.1 v) e.2)
                | none => hh) h2) doc) "_id")
        | _ => fieldsProps.foldl (fun hh e =>
            match getD (heapGet hh dObj) e.2 with
            | some v => heapSet hh doc (delKey (setKey (heapGet hh doc) e.1 v) e.2)
            | none => hh) h2) doc = dropNullId (renameToStored fieldsProps d) := by
  have hdoc3 : heapGet (fieldsProps.foldl (fun hh e =>
      match getD (heapGet hh dObj) e.2 with
      | some v => heapSet hh doc (delKey (setKey (heapGet hh doc) e.1 v) e.2)
      | none => hh) h2) doc = renameToStored fieldsProps d := by
    have := mapDataH_loop_doc dObj doc hne d fieldsProps h2 hlen hdObj
    rw [hdoc] at this
    exact this
  have hlen3 : doc < (fieldsProps.foldl (fun hh e =>
      match getD (heapGet hh dObj) e.2 with
      | some v => heapSet hh doc (delKey (setKey (heapGet hh doc) e.1 v) e.2)
      | none => hh) h2).length := by
    rw [mapDataH_loop_length]
    exact hlen
  split
  · next heq =>
      have hnull : getD (renameToStored fieldsProps d) "_id" = some Value.vNull := by
        rw [← hdoc3]
        exact heq
      rw [heapGet_set_self _ _ _ hlen3, hdoc3]
      simp only [dropNullId, hnull]
  · next heq =>
      rw [hdoc3]
      have hnull : getD (renameToStored fieldsProps d) "_id" ≠ some Value.vNull := by
        rw [← hdoc3]
        intro hc
        exact heq hc
      rw [dropNullId_eq_self _ hnull]

/-!
## Claim theorems
-/

/-- C3 counterexample: under the scenario rename table, `count` and `delete`
do **not** apply `toStored` to their filter — the filter handed to the driver
differs from `mapDataToDocument` of the filter (`{ id: s }` is sent as-is,
not as `{ _id: s }`). -/
theorem count_delete_filter_not_mapped_cex :
    scenarioDA.countRequest [("id", .vStr scenarioHex)] ≠
      mapDataToDocument scenarioDA.fieldsProps (some [("id", .vStr scenarioHex)]) ∧
    scenarioDA.deleteRequest [("id", .vStr scenarioHex)] ≠
      mapDataToDocument scenarioDA.fieldsProps (some [("id", .vStr scenarioHex)]) := by
  constructor <;> exact fun h => absurd (congrArg keys h) (by decide)

/-- C3 amended: for every filter, `count` passes the caller's filter to the
driver's count *verbatim* (no `toStored` mapping) and returns the driver's
count verbatim, and `delete` likewise passes the filter verbatim to the
driver's bulk delete and returns its deleted-record count. -/
theorem count_delete_pass_filter_verbatim (m : MongoDataAccess) (filter : Document)
    (driver : Document → Except String Nat) :
    m.countOp filter driver = driver filter ∧
    m.deleteOp filter driver = driver filter :=
  ⟨rfl, rfl⟩

/-- C7: a confirmed `drop` against a listing with more than one same-named
collection throws the collision error after the single `listCollections`
call, without invoking the driver's drop; against exactly one match it drops
and returns `true`; against zero matches it returns `true` without invoking
the driver's drop. -/
theorem drop_confirmed_cases (m : MongoDataAccess) (a b : String) (rest : List String) :
    m.drop true (a :: b :: rest) =
      (.error m.dropErrorMsg, [.listCollections m.collectionName]) ∧
    m.drop true [a] =
      (.ok true, [.listCollections m.collectionName, .dropCollection]) ∧
    m.drop true [] =
      (.ok true, [.listCollections m.collectionName]) := by
  refine ⟨?_, rfl, rfl⟩
  have h : 1 < (a :: b :: rest).length := by simp
  simp [MongoDataAccess.drop, h]

/-- C8: `drop(false)` returns `false` with an empty driver-call trace and
never fails, for every configuration and store state; and it is the sole
operation with that guarantee — each other operation has a failing run
(driver failures propagate through `count`, `delete`, `select`, `selectOne`
and `update`; `insert` can fail locally on a malformed identifier string; a
confirmed `drop` fails on a name collision). -/
theorem drop_unconfirmed_noop_sole_infallible :
    (∀ (m : MongoDataAccess) (listed : List String),
        m.drop false listed = (.ok false, [])) ∧
    (∀ (m : MongoDataAccess) (filter : Document) (e : String),
        m.countOp filter (fun _ => .error e) = .error e) ∧
    (∀ (m : MongoDataAccess) (filter : Document) (e : String),
        m.deleteOp filter (fun _ => .error e) = .error e) ∧
    scenarioDA.insertOp [("id", .vStr "zz")] (fun _ => .ok (.vOid scenarioHex)) =
      .error "BSONError: input must be a 24 character hex string" ∧
    (∀ (m : MongoDataAccess) (filter : Option Document) (e : String),
        m.selectOp filter (fun _ => .error e) = .error e) ∧
    (∀ (m : MongoDataAccess) (filter : Option Document) (e : String),
        m.selectOneOp filter (fun _ => .error e) = .error e) ∧
    (∀ (m : MongoDataAccess) (filter : Option Document) (values : Document) (e : String),
        m.updateOp filter values (fun _ _ => .error e) = .error e) ∧
    (∀ (m : MongoDataAccess) (a b : String) (rest : List String),
        (m.drop true (a :: b :: rest)).1 = .error m.dropErrorMsg) := by
  refine ⟨fun m listed => rfl, fun m f e => rfl, fun m f e => rfl, rfl,
    fun m f e => rfl, fun m f e => rfl, fun m f v e => rfl, fun m a b rest => ?_⟩
  have h : 1 < (a :: b :: rest).length := by simp
  simp [MongoDataAccess.drop, h]

/-- C1 counterexample: in the spec's scenario (rename `{ "_id": "id" }`,
identifier fields `["_id"]`), the filter `{ id: stringOf(X) }` is sent to the
driver's find/findOne as `{ _id: stringOf(X) }` — field name rewritten but the
identifier value still the *string*, not the native identifier `{ _id: X }`
the claim requires. -/
theorem select_filter_identifier_not_coerced_cex :
    scenarioDA.selectOneRequest (some [("id", .vStr scenarioHex)]) =
      [("_id", .vStr scenarioHex)] ∧
    scenarioDA.selectOneRequest (some [("id", .vStr scenarioHex)]) ≠
      [("_id", .vOid scenarioHex)] ∧
    scenarioDA.selectRequest (some [("id", .vStr scenarioHex)]) ≠
      [("_id", .vOid scenarioHex)] := by
  refine ⟨rfl, ?_, ?_⟩ <;>
  · intro h
    have h' : ([("_id", Value.vStr scenarioHex)] : Document) =
        [("_id", Value.vOid scenarioHex)] := h
    injection h' with h1 h2
    injection h1 with h3 h4
    cases h4

/-- C1 amended: for every filter whose identifier-selected field holds a valid
identifier string (scenario shape `{ id: s }`), the filter sent to the
driver's find/findOne has its field name rewritten to the stored name but its
identifier value passed through *uncoerced*, still in string form:
`{ _id: s }`. -/
theorem select_filter_renamed_value_uncoerced (s : String)
    (h : isValidOid s = true) :
    scenarioDA.selectRequest (some [("id", .vStr s)]) = [("_id", .vStr s)] ∧
    scenarioDA.selectOneRequest (some [("id", .vStr s)]) = [("_id", .vStr s)] :=
  ⟨rfl, rfl⟩

/-- Witness for the C1 amended theorem at the concrete scenario identifier. -/
theorem select_filter_renamed_value_uncoerced_witness :
    isValidOid scenarioHex = true ∧
    scenarioDA.selectRequest (some [("id", .vStr scenarioHex)]) =
      [("_id", .vStr scenarioHex)] ∧
    scenarioDA.selectOneRequest (some [("id", .vStr scenarioHex)]) =
      [("_id", .vStr scenarioHex)] :=
  ⟨by decide, select_filter_renamed_value_uncoerced scenarioHex (by decide)⟩

/-- C10: a caller-supplied filter whose primary-identifier field is null
(post-rename `_id = null`) has that field silently removed by the filter
mapping of `select`, `selectOne` and `update`; in the scenario, `{ id: null }`
becomes the empty filter, which matches every document under the driver's
equality semantics. -/
theorem null_id_filter_silently_removed (m : MongoDataAccess) (filter : Document)
    (h : getD (renameToStored m.fieldsProps filter) "_id" = some Value.vNull) :
    hasKey (m.selectRequest (some filter)) "_id" = false ∧
    hasKey (m.selectOneRequest (some filter)) "_id" = false ∧
    hasKey (m.updateRequest (some filter)) "_id" = false ∧
    scenarioDA.selectRequest (some [("id", .vNull)]) = [] ∧
    (∀ doc : Document, matchesFilter [] doc = true) := by
  have key : hasKey (mapDataToDocument m.fieldsProps (some filter)) "_id" = false := by
    simp only [mapDataToDocument, dropNullId, h]
    exact hasKey_delKey_self _ _
  exact ⟨key, key, key, rfl, fun doc => rfl⟩

/-- Witness for C10 at the scenario instance and the filter `{ id: null }`. -/
theorem null_id_filter_silently_removed_witness :
    hasKey (scenarioDA.selectRequest (some [("id", .vNull)])) "_id" = false ∧
    hasKey (scenarioDA.selectOneRequest (some [("id", .vNull)])) "_id" = false ∧
    hasKey (scenarioDA.updateRequest (some [("id", .vNull)])) "_id" = false ∧
    scenarioDA.selectRequest (some [("id", .vNull)]) = [] ∧
    (∀ doc : Document, matchesFilter [] doc = true) :=
  null_id_filter_silently_removed scenarioDA [("id", .vNull)] rfl

/-- C6: for every insert value whose primary-identifier field (the field named
`_id` after renaming) is null or absent, the document handed to the driver's
insertOne contains no `_id` field at all. -/
theorem insert_null_or_absent_id_omitted (m : MongoDataAccess) (data doc : Document)
    (h : getD (renameToStored m.fieldsProps data) "_id" = some Value.vNull ∨
         getD (renameToStored m.fieldsProps data) "_id" = none)
    (hok : m.insertRequest data = .ok doc) :
    hasKey doc "_id" = false := by
  have base : hasKey (mapDataToDocument m.fieldsProps (some data)) "_id" = false := by
    rcases h with h | h
    · simp only [mapDataToDocument, dropNullId, h]
      exact hasKey_delKey_self _ _
    · simp only [mapDataToDocument, dropNullId, h]
      exact (hasKey_eq_false_iff _ _).mpr h
  have hk := parseStringsIDs_ok_keys m.idFields
    (mapDataToDocument m.fieldsProps (some data)) doc hok
  cases hval : hasKey doc "_id" with
  | false => rfl
  | true =>
      have hmem : "_id" ∈ keys doc := (hasKey_iff_mem_keys _ _).mp hval
      rw [hk] at hmem
      have : hasKey (mapDataToDocument m.fieldsProps (some data)) "_id" = true :=
        (hasKey_iff_mem_keys _ _).mpr hmem
      rw [this] at base
      cases base

/-- Witness for C6: the scenario insert `{ id: null, username: "ann" }` sends
`{ usr_name: "ann" }` with no `_id` key. -/
theorem insert_null_or_absent_id_omitted_witness :
    hasKey [("usr_name", Value.vStr "ann")] "_id" = false :=
  insert_null_or_absent_id_omitted scenarioDA
    [("id", .vNull), ("username", .vStr "ann")]
    [("usr_name", .vStr "ann")] (Or.inl rfl) rfl

/-- C4 counterexample: an array value under an *exact-name* identifier
selector is not coerced elementwise — `parseValue` is applied to the whole
array, which throws a driver error, so no same-length coerced array is ever
produced. -/
theorem exact_selector_array_not_elementwise_cex :
    parseStringsIDs [.exact "_id"]
      [("_id", .vArr [.vOid scenarioHex, .vOid scenarioHex])] =
      .error "BSONError: Argument passed in does not match the accepted types" ∧
    (parseStringsIDs [.exact "_id"]
      [("_id", .vArr [.vOid scenarioHex, .vOid scenarioHex])]).isOk = false :=
  ⟨rfl, rfl⟩

/-- C4 amended: only for fields matched by a *pattern* selector is an
array-valued identifier field coerced elementwise, preserving length and
order; a field matched by an exact-name selector has the single-value
conversion applied to the whole array, which always fails. -/
theorem pattern_selector_arrays_elementwise (test : String → Bool) (key : String)
    (htest : test key = true) (xs ys : List Value)
    (hconv : xs.mapM parseValue = .ok ys) :
    applySelectors [.pattern test] key (.vArr xs) = .ok (.vArr ys) ∧
    parseStringsIDs [.pattern test] [(key, .vArr xs)] = .ok [(key, .vArr ys)] ∧
    ys.length = xs.length ∧
    (∀ zs : List Value, (applySelectors [.exact key] key (.vArr zs)).isOk = false) := by
  have h1 : applySelectors [.pattern test] key (.vArr xs) = .ok (.vArr ys) := by
    simp only [applySelectors, List.foldlM, htest, if_true]
    rw [hconv]
    rfl
  refine ⟨h1, ?_, mapM_parseValue_length xs ys hconv, ?_⟩
  · simp [parseStringsIDs, h1, Bind.bind, Except.bind, pure, Except.pure]
  · intro zs
    simp only [applySelectors, List.foldlM, parseValue, if_pos rfl]
    rfl

/-- Witness for the C4 amended theorem: a pattern selector over a two-element
array of native identifiers, and the exact-name failure at the same key. -/
theorem pattern_selector_arrays_elementwise_witness :
    applySelectors [.pattern (fun k => k == "ids")] "ids"
      (.vArr [.vOid scenarioHex, .vStr scenarioHex]) =
      .ok (.vArr [.vStr scenarioHex, .vOid scenarioHex]) ∧
    parseStringsIDs [.pattern (fun k => k == "ids")]
      [("ids", .vArr [.vOid scenarioHex, .vStr scenarioHex])] =
      .ok [("ids", .vArr [.vStr scenarioHex, .vOid scenarioHex])] ∧
    ([Value.vStr scenarioHex, Value.vOid scenarioHex] : List Value).length =
      ([Value.vOid scenarioHex, Value.vStr scenarioHex] : List Value).length ∧
    (∀ zs : List Value,
      (applySelectors [.exact "ids"] "ids" (.vArr zs)).isOk = false) :=
  pattern_selector_arrays_elementwise (fun k => k == "ids") "ids" rfl
    [.vOid scenarioHex, .vStr scenarioHex] [.vStr scenarioHex, .vOid scenarioHex] rfl

/-- C2 counterexample: in the spec's scenario (identifier selectors name the
*stored* field `_id`, rename `{ "_id": "id" }`), the record handed to the
caller by `selectOne` keeps the native identifier — the caller receives
`{ id: X, username: "ann" }` with `X` still native, not
`{ id: stringOf(X), username: "ann" }`: coercion runs after renaming, so the
selector `"_id"` no longer matches the renamed field `id`. -/
theorem select_result_identifier_stays_native_cex :
    scenarioDA.selectOneOp (some [("id", .vStr scenarioHex)])
      (fun _ => .ok (some [("_id", .vOid scenarioHex), ("usr_name", .vStr "ann")])) =
      .ok (some [("id", .vOid scenarioHex), ("username", .vStr "ann")]) ∧
    Value.vOid scenarioHex ≠ Value.vStr scenarioHex :=
  ⟨rfl, fun h => by cases h⟩

/-- C2 amended: every record returned by `select`/`selectOne` has each stored
field name passed through the rename mapping (every output key is the
rename-image of an input key), and identifier-to-string coercion applies to
the *post-rename* (application) field names: with a selector naming the
application field `id`, the scenario caller does receive
`{ id: stringOf(X), username: "ann" }`. -/
theorem select_results_renamed_coercion_post_rename :
    (∀ (fieldsProps : List (String × String)) (doc : Document) (k : String),
        k ∈ keys (mapDocumentToData fieldsProps doc) →
        ∃ kv ∈ doc, k = lookupProp fieldsProps kv.1) ∧
    scenarioDAAppSel.selectOneOp (some [("id", .vStr scenarioHex)])
      (fun _ => .ok (some [("_id", .vOid scenarioHex), ("usr_name", .vStr "ann")])) =
      .ok (some [("id", .vStr scenarioHex), ("username", .vStr "ann")]) ∧
    scenarioDAAppSel.selectOp (some [("id", .vStr scenarioHex)])
      (fun _ => .ok [[("_id", .vOid scenarioHex), ("usr_name", .vStr "ann")]]) =
      .ok [[("id", .vStr scenarioHex), ("username", .vStr "ann")]] :=
  ⟨keys_mapDocumentToData_mem, rfl, rfl⟩

/-- Witness for the C2 amended theorem: the renaming clause applied to the
scenario's driver record at the output key `id`. -/
theorem select_results_renamed_coercion_post_rename_witness :
    ∃ kv ∈ ([("_id", Value.vOid scenarioHex), ("usr_name", Value.vStr "ann")] : Document),
      "id" = lookupProp scenarioDA.fieldsProps kv.1 :=
  select_results_renamed_coercion_post_rename.1 scenarioDA.fieldsProps
    [("_id", .vOid scenarioHex), ("usr_name", .vStr "ann")] "id" (by decide)

/-- C5 counterexample: the round trip is not the identity on every document
without identifier-bearing or null-`_id` fields — a document whose key is a
*stored* name of the rename table (`{ x: 1 }` under table `{ x: "a" }`) comes
back renamed: `toApplication(toStored({x: 1})) = {a: 1} ≠ {x: 1}`, both as a
list and as an ordered-irrelevant mapping. -/
theorem roundtrip_fails_on_stored_name_key_cex :
    mapDocumentToData [("x", "a")]
      (mapDataToDocument [("x", "a")] (some [("x", .vInt 1)])) = [("a", .vInt 1)] ∧
    ¬ docEquiv (mapDocumentToData [("x", "a")]
        (mapDataToDocument [("x", "a")] (some [("x", .vInt 1)]))) [("x", .vInt 1)] ∧
    mapDocumentToData [("x", "a")]
      (mapDataToDocument [("x", "a")] (some [("x", .vInt 1)])) ≠ [("x", .vInt 1)] := by
  refine ⟨rfl, ?_, ?_⟩
  · intro hEq
    have h2 : (none : Option Value) = some (Value.vInt 1) := hEq "x"
    cases h2
  · intro hEq
    exact absurd (congrArg keys hEq) (by decide)

/-- C5 amended: for a rename table with unique stored names (a `Map`), and a
document with unique keys that, in addition, all avoid the table's *stored*
names (the document is in application form), and whose post-rename `_id` is
not null, `toApplication(toStored(d))` equals `d` as an ordered-irrelevant
mapping. -/
theorem roundtrip_identity_on_application_form (fieldsProps : List (String × String))
    (d : Document)
    (hfst : (fieldsProps.map Prod.fst).Nodup)
    (hdk : (keys d).Nodup)
    (hdisj : ∀ k ∈ keys d, k ∉ fieldsProps.map Prod.fst)
    (hid : getD (renameToStored fieldsProps d) "_id" ≠ some Value.vNull) :
    docEquiv (mapDocumentToData fieldsProps (mapDataToDocument fieldsProps (some d))) d :=
  roundtrip_docEquiv fieldsProps d hfst hdk hdisj hid

/-- Witness for the C5 amended theorem at the scenario configuration and the
application-form document `{ id: stringOf(X), username: "ann" }`. -/
theorem roundtrip_identity_on_application_form_witness :
    docEquiv
      (mapDocumentToData scenarioDA.fieldsProps
        (mapDataToDocument scenarioDA.fieldsProps
          (some [("id", .vStr scenarioHex), ("username", .vStr "ann")])))
      [("id", .vStr scenarioHex), ("username", .vStr "ann")] :=
  roundtrip_identity_on_application_form scenarioDA.fieldsProps
    [("id", .vStr scenarioHex), ("username", .vStr "ann")]
    (by decide) (by decide) (by decide)
    (fun hc => by
      have hc' : some (Value.vStr scenarioHex) = some Value.vNull := hc
      injection hc' with hc''
      cases hc'')

/-- C9: `mapDataToDocument` (`toStored`) never mutates its input object: in
the heap embedding every field of the input object is unchanged after the
call, the returned reference is a freshly allocated object distinct from the
input reference, and the returned object holds exactly the pure
`mapDataToDocument` of the input's value. -/
theorem mapDataToDocument_no_mutation (fieldsProps : List (String × String))
    (h : Heap) (dataRef : Nat) (href : dataRef < h.length) :
    heapGet (mapDataToDocumentH fieldsProps h dataRef).1 dataRef = heapGet h dataRef ∧
    (mapDataToDocumentH fieldsProps h dataRef).2 ≠ dataRef ∧
    heapGet (mapDataToDocumentH fieldsProps h dataRef).1
        (mapDataToDocumentH fieldsProps h dataRef).2 =
      mapDataToDocument fieldsProps (some (heapGet h dataRef)) := by
  have hlen1 : (h ++ [heapGet h dataRef]).length = h.length + 1 := by simp
  have hrne : dataRef ≠ (h ++ [heapGet h dataRef]).length := by
    rw [hlen1]
    omega
  have hObjne : h.length ≠ (h ++ [heapGet h dataRef]).length := by
    rw [hlen1]
    omega
  have hg1 : heapGet (h ++ [heapGet h dataRef]) h.length = heapGet h dataRef :=
    heapGet_append_self h [] _
  have hg2 : heapGet ((h ++ [heapGet h dataRef]) ++
      [heapGet (h ++ [heapGet h dataRef]) h.length]) h.length = heapGet h dataRef := by
    rw [heapGet_append_lt _ _ _ (by rw [hlen1]; omega)]
    exact hg1
  have hg3 : heapGet ((h ++ [heapGet h dataRef]) ++
      [heapGet (h ++ [heapGet h dataRef]) h.length])
      ((h ++ [heapGet h dataRef]).length) = heapGet h dataRef :=
    (heapGet_append_self _ [] _).trans hg1
  have hlen2 : (h ++ [heapGet h dataRef]).length <
      ((h ++ [heapGet h dataRef]) ++
        [heapGet (h ++ [heapGet h dataRef]) h.length]).length := by
    simp
  refine ⟨?_, ?_, ?_⟩
  · exact (mapDataH_tail_frame fieldsProps h.length
      ((h ++ [heapGet h dataRef]).length)
      ((h ++ [heapGet h dataRef]) ++ [heapGet (h ++ [heapGet h dataRef]) h.length])
      dataRef hrne).trans
      ((heapGet_append_lt _ _ _ (by rw [hlen1]; omega)).trans
        (heapGet_append_lt _ _ _ href))
  · show (h ++ [heapGet h dataRef]).length ≠ dataRef
    rw [hlen1]
    omega
  · exact mapDataH_tail_doc fieldsProps h.length
      ((h ++ [heapGet h dataRef]).length)
      ((h ++ [heapGet h dataRef]) ++ [heapGet (h ++ [heapGet h dataRef]) h.length])
      (heapGet h dataRef) hObjne hlen2 hg2 hg3

/-- Witness for C9 at a one-object heap holding the scenario insert value. -/
theorem mapDataToDocument_no_mutation_witness :
    heapGet (mapDataToDocumentH scenarioDA.fieldsProps
        [[("id", .vStr scenarioHex)]] 0).1 0 =
      heapGet [[("id", .vStr scenarioHex)]] 0 ∧
    (mapDataToDocumentH scenarioDA.fieldsProps [[("id", .vStr scenarioHex)]] 0).2 ≠ 0 ∧
    heapGet (mapDataToDocumentH scenarioDA.fieldsProps [[("id", .vStr scenarioHex)]] 0).1
        (mapDataToDocumentH scenarioDA.fieldsProps [[("id", .vStr scenarioHex)]] 0).2 =
      mapDataToDocument scenarioDA.fieldsProps
        (some (heapGet [[("id", .vStr scenarioHex)]] 0)) :=
  mapDataToDocument_no_mutation scenarioDA.fieldsProps
    [[("id", .vStr scenarioHex)]] 0 (by decide)

end MongoDA
